import Mathlib

/-!
Shallow embedding of `src/interfaz/Backend/Interfaz/api/serializers.py`.

Machine numbers (Django `DecimalField` / Python `Decimal`) are modelled as
exact rationals `ℚ`; Python `Decimal` addition, subtraction, multiplication
and comparison are exact on the magnitudes appearing here.  Persistent state
(the ORM-backed tables touched by the serializers) is a record of lists of
rows, threaded explicitly.  `transaction.atomic()` (used only by
`ProductSerializer.create`) is modelled by returning `Except`: an error means
the whole operation left the store untouched.  `SaleSerializer.create` is not
wrapped in a transaction in the source, so it is modelled as returning the
(possibly partially written) state together with an optional error.
-/

namespace Serializers

/-- A loosely-typed scalar as it appears in the JSON-ish payloads the
serializers receive (a number or a string). -/
inductive JVal where
  | jnum (q : ℚ)
  | jstr (s : String)
deriving DecidableEq

/-- Python truthiness of a scalar: `0` and `""` are falsy. -/
def truthy : JVal → Bool
  | .jnum q => q != 0
  | .jstr s => s != ""

/-- Python truthiness of an optional scalar: `None` (an absent key) is falsy. -/
def truthyOpt : Option JVal → Bool
  | none => false
  | some v => truthy v

/-- Value of a digit string read left to right. -/
def digitsToNat (cs : List Char) : Nat :=
  cs.foldl (fun a c => a * 10 + (c.toNat - 48)) 0

def allDigits (cs : List Char) : Bool := cs.all (·.isDigit)

/-- Model of `Decimal(str(v))` applied to a string: an optional sign followed
by decimal digits with an optional fractional part parses exactly; anything
else raises `InvalidOperation`, modelled as `none`. -/
def parseDecimal (s : String) : Option ℚ :=
  let signBody : ℚ × List Char :=
    match s.data with
    | '-' :: rest => (-1, rest)
    | '+' :: rest => (1, rest)
    | cs => (1, cs)
  let sign := signBody.1
  let body := signBody.2
  let ip := body.takeWhile (fun c => c != '.')
  match body.dropWhile (fun c => c != '.') with
  | [] =>
      if ip.isEmpty = false && allDigits ip then
        some (sign * (digitsToNat ip : ℚ))
      else none
  | _ :: fp =>
      if allDigits ip && allDigits fp && (ip.isEmpty = false || fp.isEmpty = false) then
        some (sign * ((digitsToNat ip : ℚ) + (digitsToNat fp : ℚ) / ((10 : ℚ) ^ fp.length)))
      else none

/-- `Decimal(str(v))`: numbers pass through exactly, strings are parsed. -/
def toDecimal : JVal → Option ℚ
  | .jnum q => some q
  | .jstr s => parseDecimal s

/-- Python `str.strip()`: drop leading and trailing whitespace (modelled over
the character list). -/
def pyStrip (s : String) : String :=
  ⟨((s.data.dropWhile Char.isWhitespace).reverse.dropWhile Char.isWhitespace).reverse⟩

/-! ## Data model (rows of the tables the serializers touch) -/

/-- A `Product` row. -/
structure Product where
  id : Nat
  name : String
  description : String
  price : ℚ
  stock : ℚ
  low_stock_threshold : ℚ
  category : String
  is_ingredient : Bool
  unit : String
deriving DecidableEq

/-- A validated `recipe_ingredients` entry of the write payload
(`RecipeIngredientWriteSerializer`): an ingredient reference, a per-unit
quantity and a unit.  The source reads both fields with `.get`, so they are
optional here. -/
structure RecipeLine where
  ingredient : Option Nat
  quantity : Option ℚ
  unit : String
deriving DecidableEq

/-- A persisted `RecipeIngredient` row. -/
structure RecipeRow where
  product : Nat
  ingredient : Option Nat
  quantity : Option ℚ
  unit : String
deriving DecidableEq

/-- A persisted `Sale` header row. -/
structure SaleRow where
  id : Nat
  total_amount : ℚ
  payment_method : String
deriving DecidableEq

/-- A persisted `SaleItem` row. -/
structure SaleItemRow where
  sale : Nat
  product : Nat
  quantity : ℚ
  price : ℚ
deriving DecidableEq

/-- The persistent store as seen by the serializers. -/
structure DB where
  products : List Product
  recipeRows : List RecipeRow
  sales : List SaleRow
  saleItems : List SaleItemRow
deriving DecidableEq

/-- `Product.objects.get(id=i)` / `.get(pk=i)`: first row with the given pk. -/
def findProduct (prods : List Product) (i : Nat) : Option Product :=
  prods.find? (fun p => p.id == i)

/-- `row.stock = v; row.save()`: write the stock of the row with pk `i`
(pks are unique, so updating the first match is the row update). -/
def saveStock : List Product → Nat → ℚ → List Product
  | [], _, _ => []
  | p :: rest, i, v =>
      if p.id = i then { p with stock := v } :: rest else p :: saveStock rest i v

def maxId : List Product → Nat
  | [] => 0
  | p :: rest => max p.id (maxId rest)

/-- Fresh pk assigned by `Product.objects.create`. -/
def nextId (db : DB) : Nat := maxId db.products + 1

def maxSaleId : List SaleRow → Nat
  | [] => 0
  | s :: rest => max s.id (maxSaleId rest)

/-- Fresh pk assigned by `Sale.objects.create`. -/
def nextSaleId (db : DB) : Nat := maxSaleId db.sales + 1

/-! ## ProductSerializer -/

/-- Validated scalar fields of a product payload. -/
structure ProductData where
  name : String
  description : String
  price : ℚ
  stock : ℚ
  low_stock_threshold : ℚ
  category : String
  is_ingredient : Bool
  unit : String
deriving DecidableEq

/-- `ProductSerializer.get_estado`: `Activo` if stock > 0 else `Inactivo`. -/
def get_estado (p : Product) : String :=
  if 0 < p.stock then "Activo" else "Inactivo"

/-- `ProductSerializer.validate_name`: reject empty / whitespace-only names
(`not value or not value.strip()`), otherwise return the stripped name. -/
def validate_name (value : String) : Except String String :=
  if pyStrip value = "" then .error "El nombre del producto es obligatorio."
  else .ok (pyStrip value)

/-- `ProductSerializer.validate_price`. -/
def validate_price (value : ℚ) : Except String ℚ :=
  if value ≤ 0 then .error "El precio debe ser mayor a 0." else .ok value

/-- `ProductSerializer.validate_stock`. -/
def validate_stock (value : ℚ) : Except String ℚ :=
  if value < 0 then .error "El stock no puede ser negativo." else .ok value

/-- `ProductSerializer.validate_low_stock_threshold`. -/
def validate_low_stock_threshold (value : ℚ) : Except String ℚ :=
  if value < 0 then .error "El umbral de stock bajo no puede ser negativo."
  else .ok value

/-- The per-field validators run by the serializer before `create`. -/
def validateProduct (pd : ProductData) : Except String ProductData := do
  let n ← validate_name pd.name
  let p ← validate_price pd.price
  let s ← validate_stock pd.stock
  let t ← validate_low_stock_threshold pd.low_stock_threshold
  pure { pd with name := n, price := p, stock := s, low_stock_threshold := t }

/-- The error text raised when an ingredient has insufficient stock
(`ProductSerializer.create`). -/
def insuffMsg (name : String) (needed avail : ℚ) : String :=
  s!"No hay suficiente stock para el insumo {name}. Necesario: {needed}, Disponible: {avail}"

/-- One iteration of the ingredient-deduction loop of
`ProductSerializer.create`: skip the line when the ingredient reference or the
quantity is missing or falsy or the quantity is ≤ 0; otherwise fetch the
ingredient row, check `stock >= quantity * initial_stock` and deduct.
The name in the message is the fetched row's name (same row as the validated
`ingredient` instance, the store being threaded sequentially). -/
def deductLine (S : ℚ) (prods : List Product) (l : RecipeLine) :
    Except String (List Product) :=
  match l.ingredient, l.quantity with
  | some i, some q =>
      if q ≤ 0 then .ok prods
      else
        match findProduct prods i with
        | none => .error "Product matching query does not exist."
        | some p =>
            if p.stock < q * S then .error (insuffMsg p.name (q * S) p.stock)
            else .ok (saveStock prods i (p.stock - q * S))
  | _, _ => .ok prods

/-- The ingredient-deduction loop of `ProductSerializer.create`, over the
product table (the only table the loop touches). -/
def deductLoop (S : ℚ) : List Product → List RecipeLine →
    Except String (List Product)
  | prods, [] => .ok prods
  | prods, l :: rest =>
      match deductLine S prods l with
      | .ok prods2 => deductLoop S prods2 rest
      | .error e => .error e

/-- The ingredient-deduction loop acting on the whole store. -/
def deductIngredients (S : ℚ) (db : DB) (recipe : List RecipeLine) :
    Except String DB :=
  match deductLoop S db.products recipe with
  | .ok prods => .ok { db with products := prods }
  | .error e => .error e

/-- `RecipeIngredient.objects.create(product=product, **item_data)`. -/
def lineToRow (pid : Nat) (l : RecipeLine) : RecipeRow :=
  { product := pid, ingredient := l.ingredient, quantity := l.quantity, unit := l.unit }

/-- The product row built by `Product.objects.create(**validated_data)`. -/
def newProduct (pid : Nat) (pd : ProductData) : Product :=
  { id := pid, name := pd.name, description := pd.description, price := pd.price,
    stock := pd.stock, low_stock_threshold := pd.low_stock_threshold,
    category := pd.category, is_ingredient := pd.is_ingredient, unit := pd.unit }

/-- `ProductSerializer.create`: inside `transaction.atomic()`, create the
product, create all recipe links, and if the initial stock is positive run the
ingredient-deduction loop.  An error rolls the whole operation back, which the
`Except` result models: the caller keeps the old store. -/
def productCreate (db : DB) (pd : ProductData) (recipe : List RecipeLine) :
    Except String DB :=
  let pid := nextId db
  let db2 : DB :=
    { db with
      products := db.products ++ [newProduct pid pd],
      recipeRows := db.recipeRows ++ recipe.map (lineToRow pid) }
  if 0 < pd.stock then deductIngredients pd.stock db2 recipe else .ok db2

/-! ## SaleSerializer -/

/-- Validated scalar fields of the sale header payload. -/
structure SaleData where
  total_amount : ℚ
  payment_method : String
deriving DecidableEq

/-- One raw entry of the `items` list (a plain `ListField`, so the product id
may be absent). -/
structure SaleItemInput where
  product_id : Option Nat
  quantity : ℚ
  price : ℚ
deriving DecidableEq

def idRepr : Option Nat → String
  | none => "None"
  | some i => toString i

/-- Error text for a missing product (`Product.DoesNotExist` handler in
`SaleSerializer.create`). -/
def notFoundMsg (pid : Option Nat) : String :=
  let r := idRepr pid
  s!"Producto con ID {r} no encontrado"

/-- Error text for insufficient stock in `SaleSerializer.create`. -/
def insuffSaleMsg (name : String) (avail req : ℚ) : String :=
  s!"Stock insuficiente para {name}. Disponible: {avail}, Requerido: {req}"

/-- `Product.objects.get(id=product_id)` with a possibly missing id. -/
def lookupProduct (prods : List Product) : Option Nat → Option Product
  | none => none
  | some i => findProduct prods i

/-- The two writes performed for a successful sale line: create the
`SaleItem` (with the submitted price) and save the decremented stock. -/
def saleApply (sid : Nat) (db : DB) (p : Product) (it : SaleItemInput) : DB :=
  { db with
    saleItems := db.saleItems ++
      [{ sale := sid, product := p.id, quantity := it.quantity, price := it.price }],
    products := saveStock db.products p.id (p.stock - it.quantity) }

/-- The item loop of `SaleSerializer.create`.  The source has no enclosing
transaction, so each line's writes are committed as processed: on a conflict
the loop stops with an error, keeping every write already applied. -/
def processSaleItems (sid : Nat) : DB → List SaleItemInput → DB × Option String
  | db, [] => (db, none)
  | db, it :: rest =>
      match lookupProduct db.products it.product_id with
      | none => (db, some (notFoundMsg it.product_id))
      | some p =>
          if p.stock < it.quantity then
            (db, some (insuffSaleMsg p.name p.stock it.quantity))
          else
            processSaleItems sid (saleApply sid db p it) rest

/-- The sale header row built by `Sale.objects.create(**validated_data)`. -/
def newSaleRow (db : DB) (sd : SaleData) : SaleRow :=
  { id := nextSaleId db, total_amount := sd.total_amount,
    payment_method := sd.payment_method }

/-- The store right after the sale header is persisted. -/
def withSaleHeader (db : DB) (sd : SaleData) : DB :=
  { db with sales := db.sales ++ [newSaleRow db sd] }

/-- `SaleSerializer.create`: persist the header first, then process the items;
the result is the final store (including partial writes) and the error, if
any, that aborted the loop. -/
def saleCreate (db : DB) (sd : SaleData) (items : List SaleItemInput) :
    DB × Option String :=
  processSaleItems (nextSaleId db) (withSaleHeader db sd) items

/-! ## Operation sequences (for the stock non-negativity invariant) -/

/-- The stock-mutating serializer operations. -/
inductive Op where
  | pcreate (pd : ProductData) (recipe : List RecipeLine)
  | screate (sd : SaleData) (items : List SaleItemInput)

/-- Run one operation against the store.  A failed `productCreate` rolls back
(`transaction.atomic()`), a failed `saleCreate` keeps its partial writes. -/
def runOp (db : DB) : Op → DB
  | .pcreate pd recipe =>
      match productCreate db pd recipe with
      | .ok db2 => db2
      | .error _ => db
  | .screate sd items => (saleCreate db sd items).1

def runOps (db : DB) (ops : List Op) : DB := ops.foldl runOp db

/-- The precondition the field validators establish before `create` runs:
a product payload's initial stock is non-negative (`validate_stock`). -/
def opValid : Op → Bool
  | .pcreate pd _ => decide (0 ≤ pd.stock)
  | .screate _ _ => true

/-! ## Derived quantities about recipe deduction used by the statements -/

/-- Whether a recipe line's ingredient reference resolves in the store (the
serializer's `PrimaryKeyRelatedField` guarantees this for validated data). -/
def lineRefOk (prods : List Product) (l : RecipeLine) : Bool :=
  match l.ingredient with
  | none => true
  | some i => (findProduct prods i).isSome

/-- Whether a recipe line would fail the stock check against the given store:
it is a deduction-relevant line whose ingredient's stock is below
`quantity * S`. -/
def lineInsufficient (prods : List Product) (S : ℚ) (l : RecipeLine) : Bool :=
  match l.ingredient, l.quantity with
  | some i, some q =>
      decide (0 < q) &&
        (match findProduct prods i with
         | some p => decide (p.stock < q * S)
         | none => false)
  | _, _ => false

/-- Amount the loop deducts from ingredient `i` for one recipe line:
`quantity * S` for a deduction-relevant line referencing `i`, else `0`. -/
def lineDeduction (S : ℚ) (i : Nat) (l : RecipeLine) : ℚ :=
  match l.ingredient, l.quantity with
  | some j, some q => if j = i ∧ 0 < q then q * S else 0
  | _, _ => 0

/-- Total amount the loop deducts from ingredient `i` over a whole recipe. -/
def totalNeeded (recipe : List RecipeLine) (S : ℚ) (i : Nat) : ℚ :=
  (recipe.map (lineDeduction S i)).sum

/-! ## InventoryChangeSerializer -/

/-- `InventoryChangeSerializer.validate`: reject a missing quantity, reject an
unparseable one, and store the absolute value.  The movement type is computed
by the source but only read in a branch that does nothing (`pass`). -/
def inventoryValidate (change_type : Option String) (qty : Option JVal) :
    Except (String × String) ℚ :=
  match change_type, qty with
  | _, none => .error ("quantity", "La cantidad es requerida.")
  | _, some v =>
      match toDecimal v with
      | none => .error ("quantity", "Cantidad inválida.")
      | some d => .ok (if d < 0 then |d| else d)

/-! ## PurchaseSerializer -/

/-- One entry of a purchase's `items` list, restricted to the keys
`get_total` reads. -/
structure PurchaseItem where
  quantity : Option JVal
  qty : Option JVal
  unitPrice : Option JVal
  unit_price : Option JVal
  price : Option JVal
deriving DecidableEq

/-- The shape of the stored `items` field: a structured list or anything
else. -/
inductive ItemsField where
  | lst (items : List PurchaseItem)
  | nonList
deriving DecidableEq

/-- Python `a or b`: keep `a` when truthy, else fall through to `b`. -/
def orTruthy (a : Option JVal) (b : JVal) : JVal :=
  match a with
  | some v => if truthy v then v else b
  | none => b

/-- `item.get('quantity') or item.get('qty') or 0`. -/
def itemQty (it : PurchaseItem) : JVal :=
  orTruthy it.quantity (orTruthy it.qty (.jnum 0))

/-- `item.get('unitPrice') or item.get('unit_price') or item.get('price') or 0`. -/
def itemUnitPrice (it : PurchaseItem) : JVal :=
  orTruthy it.unitPrice (orTruthy it.unit_price (orTruthy it.price (.jnum 0)))

/-- `Decimal(str(qty)) * Decimal(str(unit_price))`, `none` when either parse
raises (the `except: continue`). -/
def itemContribution (it : PurchaseItem) : Option ℚ :=
  match toDecimal (itemQty it), toDecimal (itemUnitPrice it) with
  | some a, some b => some (a * b)
  | _, _ => none

/-- One iteration of the `get_total` fold: add the item's contribution, or
skip it silently. -/
def addItem (t : ℚ) (it : PurchaseItem) : ℚ :=
  match itemContribution it with
  | some c => t + c
  | none => t

/-- `PurchaseSerializer.get_total`: fold the item list when it is a list,
otherwise fall back to the stored `total_amount`. -/
def get_total (items : ItemsField) (total_amount : ℚ) : ℚ :=
  match items with
  | .lst l => l.foldl addItem 0
  | .nonList => total_amount

/-! ## OrderSerializer -/

/-- One validated entry of an order's `items` list; the source reads every
field with `.get` and a default. -/
structure OrderItemInput where
  product_name : Option String
  quantity : Option ℚ
  unit_price : Option ℚ
deriving DecidableEq

/-- A persisted `OrderItem` row. -/
structure OrderItemRow where
  order : Nat
  product_name : String
  quantity : ℚ
  unit_price : ℚ
  total : ℚ
deriving DecidableEq

/-- Validated scalar fields of the order header payload. -/
structure OrderData where
  customer_name : String
  payment_method : String
  notes : String
  status : String
deriving DecidableEq

/-- A persisted `Order` row (the fields `create` writes). -/
structure OrderRow where
  id : Nat
  customer_name : String
  payment_method : String
  total_amount : ℚ
  notes : String
  status : String
deriving DecidableEq

/-- `OrderSerializer.create`: create each item row with
`quantity * unit_price` as its line total (defaults 1 and 0), accumulate the
grand total, and persist it on the order's `total_amount`. -/
def orderCreate (oid : Nat) (od : OrderData) (items : List OrderItemInput) :
    OrderRow × List OrderItemRow :=
  let rows := items.map (fun it =>
    { order := oid, product_name := it.product_name.getD "",
      quantity := it.quantity.getD 1, unit_price := it.unit_price.getD 0,
      total := it.quantity.getD 1 * it.unit_price.getD 0 : OrderItemRow })
  let total := rows.foldl (fun t r => t + r.total) 0
  ({ id := oid, customer_name := od.customer_name,
     payment_method := od.payment_method, total_amount := total,
     notes := od.notes, status := od.status }, rows)

/-- Reading an order's total: `total_amount` is a plain model field of
`OrderSerializer` (no `SerializerMethodField`), so reading returns the stored
value unchanged. -/
def orderReadTotal (o : OrderRow) : ℚ := o.total_amount

/-! ## Concrete instances used by example statements, witnesses and
counterexamples -/

/-- First item of the spec's purchase-total example:
`{"quantity":2,"unitPrice":"3.50"}`. -/
def pitem1 : PurchaseItem :=
  { quantity := some (.jnum 2), qty := none, unitPrice := some (.jstr "3.50"),
    unit_price := none, price := none }

/-- Second item of the spec's purchase-total example: `{"qty":1,"price":"bad"}`. -/
def pitem2 : PurchaseItem :=
  { quantity := none, qty := some (.jnum 1), unitPrice := none,
    unit_price := none, price := some (.jstr "bad") }

/-- The spec's purchase-total example list. -/
def purchaseExample : List PurchaseItem := [pitem1, pitem2]

/-- The claim's falsy-quantity item `{"quantity": 0, "qty": 5, "price": 2}`. -/
def fitem1 : PurchaseItem :=
  { quantity := some (.jnum 0), qty := some (.jnum 5), unitPrice := none,
    unit_price := none, price := some (.jnum 2) }

/-- An item whose `unitPrice` is `0` and so falls through to `unit_price`. -/
def fitem2 : PurchaseItem :=
  { quantity := some (.jnum 1), qty := none, unitPrice := some (.jnum 0),
    unit_price := some (.jnum 4), price := none }

/-- An item with an absent `quantity` and a falsy-string `qty`. -/
def fitem3 : PurchaseItem :=
  { quantity := none, qty := some (.jstr ""), unitPrice := none,
    unit_price := none, price := some (.jnum 2) }

/-- Store with a single product of stock 5 (C1 witness). -/
def w1Db : DB :=
  { products := [{ id := 1, name := "Cola", description := "", price := 10,
                   stock := 5, low_stock_threshold := 0, category := "",
                   is_ingredient := false, unit := "u" }],
    recipeRows := [], sales := [], saleItems := [] }

/-- A sale of 2 units of product 1 (C1 witness). -/
def w1Ops : List Op :=
  [Op.screate { total_amount := 20, payment_method := "efectivo" }
    [{ product_id := some 1, quantity := 2, price := 10 }]]

/-- Store with one ingredient of stock 3 (C2 witness). -/
def w2Db : DB :=
  { products := [{ id := 1, name := "Harina", description := "", price := 1,
                   stock := 3, low_stock_threshold := 0, category := "",
                   is_ingredient := true, unit := "kg" }],
    recipeRows := [], sales := [], saleItems := [] }

/-- Recipe-product payload with initial stock 2 (C2 witness). -/
def w2Pd : ProductData :=
  { name := "Pan", description := "", price := 5, stock := 2,
    low_stock_threshold := 0, category := "", is_ingredient := false,
    unit := "u" }

/-- One recipe line needing 2 units of ingredient 1 per product unit, so 4 in
total against an available 3 (C2 witness). -/
def w2Recipe : List RecipeLine :=
  [{ ingredient := some 1, quantity := some 2, unit := "kg" }]

/-- Store with two ingredients of stocks 10 and 8 (C4 witness). -/
def w4Db : DB :=
  { products := [{ id := 1, name := "Harina", description := "", price := 1,
                   stock := 10, low_stock_threshold := 0, category := "",
                   is_ingredient := true, unit := "kg" },
                 { id := 2, name := "Azucar", description := "", price := 1,
                   stock := 8, low_stock_threshold := 0, category := "",
                   is_ingredient := true, unit := "kg" }],
    recipeRows := [], sales := [], saleItems := [] }

/-- Recipe-product payload with initial stock 2 (C4 witness). -/
def w4Pd : ProductData :=
  { name := "Pan", description := "", price := 5, stock := 2,
    low_stock_threshold := 0, category := "", is_ingredient := false,
    unit := "u" }

/-- A deduction-relevant line, a zero-quantity line and a line with no
ingredient reference (C4 witness). -/
def w4Recipe : List RecipeLine :=
  [{ ingredient := some 1, quantity := some 3, unit := "kg" },
   { ingredient := some 2, quantity := some 0, unit := "kg" },
   { ingredient := none, quantity := some 1, unit := "u" }]

/-- A single sale line as submitted in the `items` payload. -/
def oneItem (pid : Nat) (q pr : ℚ) : SaleItemInput :=
  { product_id := some pid, quantity := q, price := pr }

/-- Store with one product of stock 5 (C5 witness). -/
def w5Db : DB :=
  { products := [{ id := 1, name := "Pan", description := "", price := 2,
                   stock := 5, low_stock_threshold := 0, category := "",
                   is_ingredient := false, unit := "u" }],
    recipeRows := [], sales := [], saleItems := [] }

/-- Sale header payload (C5 witness). -/
def w5Sd : SaleData := { total_amount := 297, payment_method := "tarjeta" }

/-- The product row of `w5Db` (C5 witness). -/
def w5P : Product :=
  { id := 1, name := "Pan", description := "", price := 2, stock := 5,
    low_stock_threshold := 0, category := "", is_ingredient := false,
    unit := "u" }

/-- Store for the C3 counterexample: product 1 has stock 5, product 2 has
stock 3. -/
def cx3Db : DB :=
  { products := [{ id := 1, name := "Pan", description := "", price := 2,
                   stock := 5, low_stock_threshold := 0, category := "",
                   is_ingredient := false, unit := "u" },
                 { id := 2, name := "Cola", description := "", price := 4,
                   stock := 3, low_stock_threshold := 0, category := "",
                   is_ingredient := false, unit := "u" }],
    recipeRows := [], sales := [], saleItems := [] }

/-- Sale header payload for the C3 counterexample. -/
def cx3Sd : SaleData := { total_amount := 40, payment_method := "efectivo" }

/-- Two sale lines: the first is satisfiable (2 of product 1), the second
asks for 5 of product 2, which only has 3 (C3 counterexample). -/
def cx3Items : List SaleItemInput :=
  [{ product_id := some 1, quantity := 2, price := 10 },
   { product_id := some 2, quantity := 5, price := 4 }]

/-- The spec's order-total example:
`[{"quantity":3,"unit_price":10}, {"quantity":2,"unit_price":5}]`. -/
def orderExample : List OrderItemInput :=
  [{ product_name := some "A", quantity := some 3, unit_price := some 10 },
   { product_name := some "B", quantity := some 2, unit_price := some 5 }]

/-! # Theorems -/

/-- `abs` applied only on the negative branch is `abs`. -/
theorem if_neg_abs (d : ℚ) : (if d < 0 then |d| else d) = |d| := by
  split
  · rfl
  · next h => exact (abs_of_nonneg (not_lt.mp h)).symm

/-- C6: inventory-change validation rejects exactly a missing or unparseable
quantity, otherwise stores the absolute value of the parsed quantity,
independently of sign and of the movement type; in particular `-5` and `5`
are both stored as `5` for any type. -/
theorem inventory_change_validate_spec :
    (∀ t, inventoryValidate t none =
      .error ("quantity", "La cantidad es requerida.")) ∧
    (∀ t v, toDecimal v = none → inventoryValidate t (some v) =
      .error ("quantity", "Cantidad inválida.")) ∧
    (∀ t v d, toDecimal v = some d → inventoryValidate t (some v) = .ok |d|) ∧
    (∀ t t2, inventoryValidate t (some (JVal.jnum (-5))) = .ok 5 ∧
      inventoryValidate t2 (some (JVal.jnum 5)) = .ok 5) := by
  have hval : ∀ t v d, toDecimal v = some d →
      inventoryValidate t (some v) = .ok |d| := by
    intro t v d h
    simp only [inventoryValidate, h, if_neg_abs]
  refine ⟨fun t => rfl, ?_, hval, ?_⟩
  · intro t v h
    simp only [inventoryValidate, h]
  · intro t t2
    constructor
    · rw [hval t (JVal.jnum (-5)) (-5) rfl]
      norm_num
    · rw [hval t2 (JVal.jnum 5) 5 rfl]
      norm_num

/-- A witness for C6 at concrete inputs: the unparseable string is rejected
and the negative quantity is stored as its absolute value. -/
theorem inventory_change_validate_spec_witness :
    inventoryValidate (some "Salida") (some (JVal.jstr "bad")) =
      .error ("quantity", "Cantidad inválida.") ∧
    inventoryValidate (some "Salida") (some (JVal.jnum (-5))) = .ok 5 :=
  ⟨inventory_change_validate_spec.2.1 (some "Salida") (JVal.jstr "bad") rfl,
   (inventory_change_validate_spec.2.2.2 (some "Salida") (some "Salida")).1⟩

/-- The `get_total` fold adds exactly the parseable items' contributions. -/
theorem foldl_addItem (l : List PurchaseItem) :
    ∀ t : ℚ, l.foldl addItem t = t + (l.filterMap itemContribution).sum := by
  induction l with
  | nil => intro t; simp
  | cons it rest ih =>
      intro t
      cases h : itemContribution it with
      | none => simp [addItem, h, ih t]
      | some c =>
          rw [List.foldl_cons, List.filterMap_cons_some h, List.sum_cons]
          have : addItem t it = t + c := by simp [addItem, h]
          rw [this, ih (t + c)]
          ring

/-- C7: the purchase total is computed on read as the sum of
`quantity * unit price` over the parseable items (unparseable ones are
skipped), the spec's example evaluates to `7.00`, and a non-list `items`
falls back to the stored `total_amount`. -/
theorem purchase_total_spec :
    (∀ (l : List PurchaseItem) (ta : ℚ),
        get_total (ItemsField.lst l) ta = (l.filterMap itemContribution).sum) ∧
    (∀ ta : ℚ, get_total (ItemsField.lst purchaseExample) ta = 7) ∧
    (∀ ta : ℚ, get_total ItemsField.nonList ta = ta) := by
  refine ⟨?_, ?_, fun ta => rfl⟩
  · intro l ta
    rw [show get_total (ItemsField.lst l) ta = l.foldl addItem 0 from rfl,
      foldl_addItem l 0, zero_add]
  · intro ta
    have h1 : itemContribution pitem1 =
        some (2 * (1 * (((3 : Nat) : ℚ) + ((50 : Nat) : ℚ) / (10 : ℚ) ^ 2))) := rfl
    have h2 : itemContribution pitem2 = none := rfl
    show List.foldl addItem 0 [pitem1, pitem2] = 7
    rw [List.foldl_cons, List.foldl_cons, List.foldl_nil]
    rw [show addItem 0 pitem1 =
        0 + (2 * (1 * (((3 : Nat) : ℚ) + ((50 : Nat) : ℚ) / (10 : ℚ) ^ 2))) by
      simp [addItem, h1]]
    rw [show ∀ t : ℚ, addItem t pitem2 = t from fun t => by
      simp [addItem, h2]]
    norm_num

/-- The fold step over order items accumulates the line totals. -/
theorem foldl_orderTotal (rows : List OrderItemRow) :
    ∀ t : ℚ, rows.foldl (fun t r => t + r.total) t =
      t + (rows.map (fun r => r.total)).sum := by
  induction rows with
  | nil => intro t; simp
  | cons r rest ih =>
      intro t
      rw [List.foldl_cons, ih (t + r.total), List.map_cons, List.sum_cons]
      ring

/-- C8: order creation persists `total_amount` as the sum of
`quantity * unit_price` over the submitted items (with the source's defaults
for missing fields), the spec's example persists `40`, and reading the total
back returns the stored field unchanged. -/
theorem order_total_persisted :
    (∀ oid od items, (orderCreate oid od items).1.total_amount =
      (items.map (fun it => it.quantity.getD 1 * it.unit_price.getD 0)).sum) ∧
    (∀ oid od items, orderReadTotal (orderCreate oid od items).1 =
      (orderCreate oid od items).1.total_amount) ∧
    (∀ oid od, (orderCreate oid od orderExample).1.total_amount = 40) := by
  have key : ∀ oid od items, (orderCreate oid od items).1.total_amount =
      (items.map (fun it => it.quantity.getD 1 * it.unit_price.getD 0)).sum := by
    intro oid od items
    simp only [orderCreate]
    rw [foldl_orderTotal, zero_add, List.map_map]
    rfl
  refine ⟨key, fun oid od items => rfl, ?_⟩
  intro oid od
  rw [key oid od orderExample]
  show ((3 : ℚ) * 10 + ((2 : ℚ) * 5 + 0)) = 40
  norm_num

/-- When Python `or` sees a falsy first operand, it yields the second. -/
theorem orTruthy_falsy (a : Option JVal) (b : JVal) (h : truthyOpt a = false) :
    orTruthy a b = b := by
  cases a with
  | none => rfl
  | some v =>
      simp only [truthyOpt] at h
      simp [orTruthy, h]

/-- C10: the purchase-total fold coalesces alternate keys with Python `or`,
so a falsy value falls through exactly like an absent one: `quantity = 0`
falls through to `qty` (the claim's item contributes `10`), `unitPrice = 0`
falls through to `unit_price`, and an item whose quantity keys are all
missing or falsy adds nothing to the total. -/
theorem purchase_falsy_coalescing :
    (itemContribution fitem1 = some 10) ∧
    (itemContribution fitem2 = some 4) ∧
    (∀ (t : ℚ) (it : PurchaseItem), truthyOpt it.quantity = false →
      truthyOpt it.qty = false → addItem t it = t) := by
  refine ⟨?_, ?_, ?_⟩
  · rw [show itemContribution fitem1 = some ((5 : ℚ) * 2) from rfl]
    norm_num
  · rw [show itemContribution fitem2 = some ((1 : ℚ) * 4) from rfl]
    norm_num
  · intro t it h1 h2
    have hq : itemQty it = .jnum 0 := by
      rw [itemQty, orTruthy_falsy _ _ h1, orTruthy_falsy _ _ h2]
    unfold addItem itemContribution
    rw [hq]
    cases hp : toDecimal (itemUnitPrice it) with
    | none => rfl
    | some b => simp [toDecimal]

/-- A witness for C10: an item with an absent quantity and a falsy-string
qty leaves the accumulator unchanged. -/
theorem purchase_falsy_coalescing_witness : addItem 3 fitem3 = 3 :=
  purchase_falsy_coalescing.2.2 3 fitem3 rfl rfl

/-! ## Store lemmas -/

theorem id_le_maxId : ∀ (l : List Product), ∀ p ∈ l, p.id ≤ maxId l := by
  intro l
  induction l with
  | nil => intro p hp; cases hp
  | cons a rest ih =>
      intro p hp
      rcases List.mem_cons.mp hp with h | h
      · rw [h, maxId]; exact le_max_left _ _
      · exact le_trans (ih p h) (le_max_right _ _)

theorem findProduct_of_maxId_lt (l : List Product) (i : Nat) (h : maxId l < i) :
    findProduct l i = none := by
  rw [findProduct, List.find?_eq_none]
  intro p hp
  simp only [beq_iff_eq]
  exact Nat.ne_of_lt (lt_of_le_of_lt (id_le_maxId l p hp) h)

/-- The pk `Product.objects.create` assigns is fresh. -/
theorem findProduct_nextId (db : DB) : findProduct db.products (nextId db) = none :=
  findProduct_of_maxId_lt _ _ (Nat.lt_succ_self _)

theorem findProduct_append (l l2 : List Product) (i : Nat) :
    findProduct (l ++ l2) i = (findProduct l i).or (findProduct l2 i) :=
  List.find?_append

theorem findProduct_append_some (l l2 : List Product) (i : Nat) (p : Product)
    (h : findProduct l i = some p) : findProduct (l ++ l2) i = some p := by
  rw [findProduct_append, h]; rfl

theorem findProduct_append_none (l l2 : List Product) (i : Nat)
    (h : findProduct l i = none) : findProduct (l ++ l2) i = findProduct l2 i := by
  rw [findProduct_append, h]; rfl

/-- A member produced by a stock write is an old member or carries the written
stock. -/
theorem mem_saveStock (l : List Product) (i : Nat) (v : ℚ) :
    ∀ q ∈ saveStock l i v, q ∈ l ∨ q.stock = v := by
  induction l with
  | nil => intro q hq; cases hq
  | cons p rest ih =>
      intro q hq
      by_cases hpi : p.id = i
      · rw [saveStock, if_pos hpi] at hq
        rcases List.mem_cons.mp hq with h | h
        · right; rw [h]
        · left; exact List.mem_cons_of_mem _ h
      · rw [saveStock, if_neg hpi] at hq
        rcases List.mem_cons.mp hq with h | h
        · left; rw [h]; exact List.mem_cons_self _ _
        · rcases ih q h with h2 | h2
          · left; exact List.mem_cons_of_mem _ h2
          · right; exact h2

/-- Writing a stock keeps the lookup of every other pk unchanged. -/
theorem findProduct_saveStock_ne (i j : Nat) (v : ℚ) (hne : j ≠ i) :
    ∀ l : List Product, findProduct (saveStock l i v) j = findProduct l j := by
  intro l
  induction l with
  | nil => rfl
  | cons p rest ih =>
      by_cases hpi : p.id = i
      · rw [saveStock, if_pos hpi, findProduct, findProduct,
          List.find?_cons_of_neg, List.find?_cons_of_neg]
        · simp only [beq_iff_eq]; rw [hpi]; exact fun h => hne h.symm
        · simp only [beq_iff_eq]; rw [hpi]; exact fun h => hne h.symm
      · by_cases hpj : p.id = j
        · rw [saveStock, if_neg hpi, findProduct, findProduct,
            List.find?_cons_of_pos, List.find?_cons_of_pos]
          · simp only [beq_iff_eq]; exact hpj
          · simp only [beq_iff_eq]; exact hpj
        · rw [saveStock, if_neg hpi, findProduct, findProduct,
            List.find?_cons_of_neg, List.find?_cons_of_neg]
          · exact ih
          · simp only [beq_iff_eq]; exact hpj
          · simp only [beq_iff_eq]; exact hpj

/-- Writing a stock updates the looked-up row in place. -/
theorem findProduct_saveStock_eq (i : Nat) (v : ℚ) :
    ∀ (l : List Product) (p : Product), findProduct l i = some p →
      findProduct (saveStock l i v) i = some { p with stock := v } := by
  intro l
  induction l with
  | nil => intro p h; cases h
  | cons a rest ih =>
      intro p h
      by_cases hai : a.id = i
      · rw [findProduct, List.find?_cons_of_pos _ (by simp [beq_iff_eq, hai])] at h
        cases h
        rw [saveStock, if_pos hai, findProduct,
          List.find?_cons_of_pos _ (by simp [beq_iff_eq, hai])]
      · rw [findProduct, List.find?_cons_of_neg _ (by simp [beq_iff_eq, hai])] at h
        rw [saveStock, if_neg hai, findProduct,
          List.find?_cons_of_neg _ (by simp [beq_iff_eq, hai])]
        exact ih p h

/-- Writing to an absent pk leaves the table unchanged. -/
theorem saveStock_of_none (i : Nat) (v : ℚ) :
    ∀ l : List Product, findProduct l i = none → saveStock l i v = l := by
  intro l
  induction l with
  | nil => intro h; rfl
  | cons a rest ih =>
      intro h
      by_cases hai : a.id = i
      · rw [findProduct, List.find?_cons_of_pos _ (by simp [beq_iff_eq, hai])] at h
        cases h
      · rw [findProduct, List.find?_cons_of_neg _ (by simp [beq_iff_eq, hai])] at h
        rw [saveStock, if_neg hai, ih h]

/-- A stock write preserves non-negativity when the written value is
non-negative. -/
theorem saveStock_nonneg (l : List Product) (i : Nat) (v : ℚ) (hv : 0 ≤ v)
    (h : ∀ p ∈ l, 0 ≤ p.stock) : ∀ q ∈ saveStock l i v, 0 ≤ q.stock := by
  intro q hq
  rcases mem_saveStock l i v q hq with h2 | h2
  · exact h q h2
  · rw [h2]; exact hv

/-! ## Recipe-deduction lemmas -/

theorem lineDeduction_ingredient_none (S : ℚ) (i : Nat) (l : RecipeLine)
    (h : l.ingredient = none) : lineDeduction S i l = 0 := by
  unfold lineDeduction; rw [h]

theorem lineDeduction_quantity_none (S : ℚ) (i : Nat) (l : RecipeLine) (j : Nat)
    (hI : l.ingredient = some j) (h : l.quantity = none) :
    lineDeduction S i l = 0 := by
  unfold lineDeduction; rw [hI, h]

theorem lineDeduction_some (S : ℚ) (i j : Nat) (q : ℚ) (l : RecipeLine)
    (hI : l.ingredient = some j) (hQ : l.quantity = some q) :
    lineDeduction S i l = if j = i ∧ 0 < q then q * S else 0 := by
  unfold lineDeduction; rw [hI, hQ]

theorem lineDeduction_nonpos (S : ℚ) (i j : Nat) (q : ℚ) (l : RecipeLine)
    (hI : l.ingredient = some j) (hQ : l.quantity = some q) (hq : q ≤ 0) :
    lineDeduction S i l = 0 := by
  rw [lineDeduction_some S i j q l hI hQ, if_neg]
  exact fun h => absurd h.2 (not_lt.mpr hq)

theorem lineDeduction_ne (S : ℚ) (i j : Nat) (q : ℚ) (l : RecipeLine)
    (hI : l.ingredient = some j) (hQ : l.quantity = some q) (hne : j ≠ i) :
    lineDeduction S i l = 0 := by
  rw [lineDeduction_some S i j q l hI hQ, if_neg]
  exact fun h => hne h.1

theorem lineDeduction_nonneg (S : ℚ) (i : Nat) (l : RecipeLine) (hS : 0 ≤ S) :
    0 ≤ lineDeduction S i l := by
  cases hI : l.ingredient with
  | none =>
      rw [lineDeduction_ingredient_none S i l hI]
  | some j =>
      cases hQ : l.quantity with
      | none =>
          rw [lineDeduction_quantity_none S i l j hI hQ]
      | some q =>
          rw [lineDeduction_some S i j q l hI hQ]
          split
          · next h => exact mul_nonneg (le_of_lt h.2) hS
          · exact le_refl (0 : ℚ)

theorem totalNeeded_nil (S : ℚ) (i : Nat) : totalNeeded [] S i = 0 := rfl

theorem totalNeeded_cons (l : RecipeLine) (rest : List RecipeLine) (S : ℚ)
    (i : Nat) :
    totalNeeded (l :: rest) S i = lineDeduction S i l + totalNeeded rest S i := by
  unfold totalNeeded; rw [List.map_cons, List.sum_cons]

theorem totalNeeded_nonneg (recipe : List RecipeLine) (S : ℚ) (i : Nat)
    (hS : 0 ≤ S) : 0 ≤ totalNeeded recipe S i := by
  unfold totalNeeded
  refine List.sum_nonneg ?_
  intro x hx
  obtain ⟨l, _, hl⟩ := List.mem_map.mp hx
  rw [← hl]
  exact lineDeduction_nonneg S i l hS

theorem totalNeeded_not_referenced (recipe : List RecipeLine) (S : ℚ) (i : Nat)
    (h : ∀ l ∈ recipe, l.ingredient ≠ some i) : totalNeeded recipe S i = 0 := by
  induction recipe with
  | nil => rfl
  | cons l rest ih =>
      rw [totalNeeded_cons,
        ih (fun l2 hl2 => h l2 (List.mem_cons_of_mem _ hl2)), add_zero]
      cases hI : l.ingredient with
      | none => exact lineDeduction_ingredient_none S i l hI
      | some j =>
          have hji : j ≠ i := fun he => h l (List.mem_cons_self _ _) (he ▸ hI)
          cases hQ : l.quantity with
          | none => exact lineDeduction_quantity_none S i l j hI hQ
          | some q => exact lineDeduction_ne S i j q l hI hQ hji

theorem deductLine_skip (S : ℚ) (prods : List Product) (l : RecipeLine)
    (h : l.ingredient = none ∨ l.quantity = none ∨
      ∃ q, l.quantity = some q ∧ q ≤ 0) :
    deductLine S prods l = .ok prods := by
  rcases h with h | h | ⟨q, hq, hq0⟩
  · simp only [deductLine, h]
  · cases hI : l.ingredient with
    | none => simp only [deductLine, hI]
    | some j => simp only [deductLine, hI, h]
  · cases hI : l.ingredient with
    | none => simp only [deductLine, hI]
    | some j => simp only [deductLine, hI, hq, if_pos hq0]

theorem deductLine_run (S : ℚ) (prods : List Product) (l : RecipeLine)
    (i : Nat) (q : ℚ) (p : Product) (hI : l.ingredient = some i)
    (hQ : l.quantity = some q) (hq : 0 < q) (hp : findProduct prods i = some p)
    (hs : ¬ p.stock < q * S) :
    deductLine S prods l = .ok (saveStock prods i (p.stock - q * S)) := by
  simp only [deductLine, hI, hQ, if_neg (not_le.mpr hq), hp, if_neg hs]

theorem deductLine_fail (S : ℚ) (prods : List Product) (l : RecipeLine)
    (i : Nat) (q : ℚ) (p : Product) (hI : l.ingredient = some i)
    (hQ : l.quantity = some q) (hq : 0 < q) (hp : findProduct prods i = some p)
    (hs : p.stock < q * S) :
    deductLine S prods l = .error (insuffMsg p.name (q * S) p.stock) := by
  simp only [deductLine, hI, hQ, if_neg (not_le.mpr hq), hp, if_pos hs]

theorem deductLoop_cons (S : ℚ) (prods : List Product) (l : RecipeLine)
    (rest : List RecipeLine) :
    deductLoop S prods (l :: rest) =
      match deductLine S prods l with
      | .ok prods2 => deductLoop S prods2 rest
      | .error e => .error e := rfl

/-- Success specification of the deduction loop: when every referenced
ingredient resolves and every product's stock covers the recipe's total
requirement on it, the loop succeeds and each pk's row is updated in place
with its stock lowered by exactly the total requirement. -/
theorem deductLoop_ok_spec (S : ℚ) (hS : 0 ≤ S) :
    ∀ (recipe : List RecipeLine) (prods : List Product),
    (∀ l ∈ recipe, ∀ j, l.ingredient = some j →
      (findProduct prods j).isSome = true) →
    (∀ i p, findProduct prods i = some p → totalNeeded recipe S i ≤ p.stock) →
    ∃ prods2, deductLoop S prods recipe = .ok prods2 ∧
      ∀ i, findProduct prods2 i = (findProduct prods i).map
        (fun p => { p with stock := p.stock - totalNeeded recipe S i }) := by
  intro recipe
  induction recipe with
  | nil =>
      intro prods hex hsuff
      refine ⟨prods, rfl, ?_⟩
      intro i
      cases h : findProduct prods i with
      | none => rfl
      | some p => simp [totalNeeded_nil]
  | cons l rest ih =>
      intro prods hex hsuff
      have hexR0 : ∀ l2 ∈ rest, ∀ j, l2.ingredient = some j →
          (findProduct prods j).isSome = true :=
        fun l2 hl2 => hex l2 (List.mem_cons_of_mem _ hl2)
      -- skip cases are handled uniformly through this step
      have skip : (deductLine S prods l = .ok prods) →
          (∀ i, lineDeduction S i l = 0) →
          ∃ prods2, deductLoop S prods (l :: rest) = .ok prods2 ∧
            ∀ i, findProduct prods2 i = (findProduct prods i).map
              (fun p => { p with stock := p.stock - totalNeeded (l :: rest) S i }) := by
        intro hd h0
        have hsuffR : ∀ i p, findProduct prods i = some p →
            totalNeeded rest S i ≤ p.stock := by
          intro i p hp
          have := hsuff i p hp
          rwa [totalNeeded_cons, h0 i, zero_add] at this
        obtain ⟨prods2, h1, h2⟩ := ih prods hexR0 hsuffR
        refine ⟨prods2, ?_, ?_⟩
        · rw [deductLoop_cons, hd]; exact h1
        · intro i
          simp only [totalNeeded_cons, h0 i, zero_add]
          exact h2 i
      cases hI : l.ingredient with
      | none =>
          exact skip (deductLine_skip S prods l (Or.inl hI))
            (fun i => lineDeduction_ingredient_none S i l hI)
      | some i0 =>
          cases hQ : l.quantity with
          | none =>
              exact skip (deductLine_skip S prods l (Or.inr (Or.inl hQ)))
                (fun i => lineDeduction_quantity_none S i l i0 hI hQ)
          | some q =>
              by_cases hq : q ≤ 0
              · exact skip (deductLine_skip S prods l (Or.inr (Or.inr ⟨q, hQ, hq⟩)))
                  (fun i => lineDeduction_nonpos S i i0 q l hI hQ hq)
              · push_neg at hq
                have hex0 := hex l (List.mem_cons_self l rest) i0 hI
                obtain ⟨p0, hp0⟩ := Option.isSome_iff_exists.mp hex0
                have htot := hsuff i0 p0 hp0
                rw [totalNeeded_cons, lineDeduction_some S i0 i0 q l hI hQ,
                  if_pos ⟨rfl, hq⟩] at htot
                have hneed : q * S ≤ p0.stock := by
                  have := totalNeeded_nonneg rest S i0 hS
                  linarith
                have hnlt : ¬ p0.stock < q * S := not_lt.mpr hneed
                have hd := deductLine_run S prods l i0 q p0 hI hQ hq hp0 hnlt
                have hexR : ∀ l2 ∈ rest, ∀ j, l2.ingredient = some j →
                    (findProduct (saveStock prods i0 (p0.stock - q * S)) j).isSome
                      = true := by
                  intro l2 hl2 j hj
                  by_cases hji : j = i0
                  · subst hji
                    rw [findProduct_saveStock_eq j _ prods p0 hp0]
                    rfl
                  · rw [findProduct_saveStock_ne i0 j _ hji]
                    exact hexR0 l2 hl2 j hj
                have hsuffR : ∀ j p,
                    findProduct (saveStock prods i0 (p0.stock - q * S)) j = some p →
                    totalNeeded rest S j ≤ p.stock := by
                  intro j p hp
                  by_cases hji : j = i0
                  · subst hji
                    rw [findProduct_saveStock_eq j _ prods p0 hp0] at hp
                    cases hp
                    show totalNeeded rest S j ≤ p0.stock - q * S
                    linarith
                  · rw [findProduct_saveStock_ne i0 j _ hji] at hp
                    have := hsuff j p hp
                    rwa [totalNeeded_cons,
                      lineDeduction_ne S j i0 q l hI hQ (Ne.symm hji),
                      zero_add] at this
                obtain ⟨prods2, h1, h2⟩ :=
                  ih (saveStock prods i0 (p0.stock - q * S)) hexR hsuffR
                refine ⟨prods2, ?_, ?_⟩
                · rw [deductLoop_cons, hd]; exact h1
                · intro j
                  rw [h2 j]
                  by_cases hji : j = i0
                  · subst hji
                    rw [findProduct_saveStock_eq j _ prods p0 hp0, hp0]
                    simp only [Option.map_some']
                    rw [totalNeeded_cons, lineDeduction_some S j j q l hI hQ,
                      if_pos ⟨rfl, hq⟩]
                    congr 1
                    cases p0
                    simp only [Product.mk.injEq, eq_self_iff_true, true_and,
                      and_true]
                    ring
                  · rw [findProduct_saveStock_ne i0 j _ hji]
                    simp only [totalNeeded_cons,
                      lineDeduction_ne S j i0 q l hI hQ (Ne.symm hji), zero_add]

theorem deductIngredients_ok (S : ℚ) (db : DB) (recipe : List RecipeLine)
    (prods2 : List Product) (h : deductLoop S db.products recipe = .ok prods2) :
    deductIngredients S db recipe = .ok { db with products := prods2 } := by
  unfold deductIngredients
  rw [h]

theorem deductIngredients_error (S : ℚ) (db : DB) (recipe : List RecipeLine)
    (e : String) (h : deductLoop S db.products recipe = .error e) :
    deductIngredients S db recipe = .error e := by
  unfold deductIngredients
  rw [h]

/-- `productCreate` unfolded: the product row and all recipe rows are
inserted, then the deduction loop runs when the initial stock is positive. -/
theorem productCreate_eq (db : DB) (pd : ProductData) (recipe : List RecipeLine) :
    productCreate db pd recipe =
      if 0 < pd.stock then
        deductIngredients pd.stock
          { db with
            products := db.products ++ [newProduct (nextId db) pd],
            recipeRows := db.recipeRows ++ recipe.map (lineToRow (nextId db)) }
          recipe
      else
        .ok { db with
          products := db.products ++ [newProduct (nextId db) pd],
          recipeRows := db.recipeRows ++ recipe.map (lineToRow (nextId db)) } := rfl

theorem lineDeduction_S_zero (i : Nat) (l : RecipeLine) :
    lineDeduction 0 i l = 0 := by
  cases hI : l.ingredient with
  | none => exact lineDeduction_ingredient_none 0 i l hI
  | some j =>
      cases hQ : l.quantity with
      | none => exact lineDeduction_quantity_none 0 i l j hI hQ
      | some q =>
          rw [lineDeduction_some 0 i j q l hI hQ]
          split
          · exact mul_zero q
          · rfl

theorem totalNeeded_S_zero (recipe : List RecipeLine) (i : Nat) :
    totalNeeded recipe 0 i = 0 := by
  induction recipe with
  | nil => rfl
  | cons l rest ih =>
      rw [totalNeeded_cons, lineDeduction_S_zero, ih, add_zero]

theorem findProduct_singleton (p : Product) (i : Nat) :
    findProduct [p] i = if p.id = i then some p else none := by
  unfold findProduct
  by_cases h : p.id = i
  · rw [if_pos h]
    exact List.find?_cons_of_pos _ (by simp [beq_iff_eq, h])
  · rw [if_neg h]
    calc List.find? (fun q => q.id == i) [p]
        = List.find? (fun q => q.id == i) [] :=
          List.find?_cons_of_neg _ (by simp [beq_iff_eq, h])
      _ = none := rfl

/-- The `hex`/`hsuff` hypotheses transferred to the table right after the new
product row is appended (its fresh pk is referenced by no recipe line). -/
theorem totalNeeded_at_fresh (db : DB) (recipe : List RecipeLine) (S : ℚ)
    (hex : ∀ l ∈ recipe, ∀ j, l.ingredient = some j →
      (findProduct db.products j).isSome = true) :
    totalNeeded recipe S (nextId db) = 0 := by
  refine totalNeeded_not_referenced recipe S (nextId db) ?_
  intro l hl he
  have := hex l hl (nextId db) he
  rw [findProduct_nextId db] at this
  cases this

/-- C4: creating a recipe product with non-negative initial stock `S`, with
every referenced ingredient present and every product's stock covering the
recipe's total requirement on it, succeeds; each existing product's stock
drops by exactly the sum of `quantity_per_unit * S` over the
deduction-relevant lines referencing it (so skipped lines — missing
ingredient, missing quantity, quantity ≤ 0 — and the case `S = 0` deduct
nothing), and every recipe line, skipped or not, is stored as a recipe
link. -/
theorem recipe_deduction_exact (db : DB) (pd : ProductData)
    (recipe : List RecipeLine) (hS : 0 ≤ pd.stock)
    (hex : ∀ l ∈ recipe, lineRefOk db.products l = true)
    (hsuff : ∀ p ∈ db.products, totalNeeded recipe pd.stock p.id ≤ p.stock) :
    ∃ db2, productCreate db pd recipe = .ok db2 ∧
      (∀ i p, findProduct db.products i = some p →
        findProduct db2.products i =
          some { p with stock := p.stock - totalNeeded recipe pd.stock i }) ∧
      db2.recipeRows = db.recipeRows ++ recipe.map (lineToRow (nextId db)) ∧
      db2.sales = db.sales ∧ db2.saleItems = db.saleItems := by
  have hex2 : ∀ l ∈ recipe, ∀ j, l.ingredient = some j →
      (findProduct db.products j).isSome = true := by
    intro l hl j hj
    have := hex l hl
    unfold lineRefOk at this
    rw [hj] at this
    exact this
  have hsuff2 : ∀ i p, findProduct db.products i = some p →
      totalNeeded recipe pd.stock i ≤ p.stock := by
    intro i p h
    have hid : p.id = i := by
      have := List.find?_some h
      simpa [beq_iff_eq] using this
    have := hsuff p (List.mem_of_find?_eq_some h)
    rwa [hid] at this
  have hexA : ∀ l ∈ recipe, ∀ j, l.ingredient = some j →
      (findProduct (db.products ++ [newProduct (nextId db) pd]) j).isSome
        = true := by
    intro l hl j hj
    obtain ⟨p, hp⟩ := Option.isSome_iff_exists.mp (hex2 l hl j hj)
    rw [findProduct_append_some _ _ _ _ hp]
    rfl
  have hsuffA : ∀ i p,
      findProduct (db.products ++ [newProduct (nextId db) pd]) i = some p →
      totalNeeded recipe pd.stock i ≤ p.stock := by
    intro i p h
    cases h0 : findProduct db.products i with
    | some p2 =>
        rw [findProduct_append_some _ _ _ _ h0] at h
        injection h with he
        rw [← he]
        exact hsuff2 i p2 h0
    | none =>
        rw [findProduct_append_none _ _ _ h0, findProduct_singleton] at h
        by_cases hb : (newProduct (nextId db) pd).id = i
        · rw [if_pos hb] at h
          injection h with he
          rw [← he]
          have hi : nextId db = i := by simpa [newProduct] using hb
          rw [← hi, totalNeeded_at_fresh db recipe pd.stock hex2]
          exact hS
        · rw [if_neg hb] at h
          cases h
  by_cases h0 : 0 < pd.stock
  · obtain ⟨prods2, hloop, hfind⟩ :=
      deductLoop_ok_spec pd.stock hS recipe
        (db.products ++ [newProduct (nextId db) pd]) hexA hsuffA
    have hcreate : productCreate db pd recipe = .ok { db with products := prods2, recipeRows := db.recipeRows ++ recipe.map (lineToRow (nextId db)) } := by
      rw [productCreate_eq, if_pos h0]
      exact deductIngredients_ok pd.stock _ recipe prods2 hloop
    refine ⟨_, hcreate, ?_, rfl, rfl, rfl⟩
    · intro i p h
      show findProduct prods2 i = _
      rw [hfind i, findProduct_append_some _ _ _ _ h]
      rfl
  · have h00 : pd.stock = 0 := le_antisymm (not_lt.mp h0) hS
    have hcreate : productCreate db pd recipe = .ok { db with products := db.products ++ [newProduct (nextId db) pd], recipeRows := db.recipeRows ++ recipe.map (lineToRow (nextId db)) } := by
      rw [productCreate_eq, if_neg h0]
    refine ⟨_, hcreate, ?_, rfl, rfl, rfl⟩
    · intro i p h
      show findProduct (db.products ++ [newProduct (nextId db) pd]) i = _
      rw [findProduct_append_some _ _ _ _ h, h00, totalNeeded_S_zero, sub_zero]

theorem lineInsufficient_elim (prods : List Product) (S : ℚ) (l : RecipeLine)
    (h : lineInsufficient prods S l = true) :
    ∃ i q p, l.ingredient = some i ∧ l.quantity = some q ∧ 0 < q ∧
      findProduct prods i = some p ∧ p.stock < q * S := by
  cases hI : l.ingredient with
  | none =>
      simp only [lineInsufficient, hI] at h
      exact Bool.noConfusion h
  | some i =>
      cases hQ : l.quantity with
      | none =>
          simp only [lineInsufficient, hI, hQ] at h
          exact Bool.noConfusion h
      | some q =>
          simp only [lineInsufficient, hI, hQ] at h
          cases hP : findProduct prods i with
          | none => rw [hP] at h; simp at h
          | some p =>
              rw [hP] at h
              rw [Bool.and_eq_true, decide_eq_true_eq, decide_eq_true_eq] at h
              exact ⟨i, q, p, rfl, rfl, h.1, hP, h.2⟩

theorem lineInsufficient_intro (prods : List Product) (S : ℚ) (l : RecipeLine)
    (i : Nat) (q : ℚ) (p : Product) (hI : l.ingredient = some i)
    (hQ : l.quantity = some q) (hq : 0 < q) (hP : findProduct prods i = some p)
    (hs : p.stock < q * S) : lineInsufficient prods S l = true := by
  simp only [lineInsufficient, hI, hQ, hP, Bool.and_eq_true,
    decide_eq_true_eq]
  exact ⟨hq, hs⟩

/-- Failure specification of the deduction loop: if some recipe line's
ingredient is short (against the current table) and every referenced
ingredient resolves, the loop stops with the insufficient-stock message, whose
reported available quantity is below the reported needed quantity. -/
theorem deductLoop_insufficient (S : ℚ) (hS : 0 < S) :
    ∀ (recipe : List RecipeLine) (prods : List Product),
    (∀ l ∈ recipe, ∀ j, l.ingredient = some j →
      (findProduct prods j).isSome = true) →
    (∃ l ∈ recipe, lineInsufficient prods S l = true) →
    ∃ name needed avail,
      deductLoop S prods recipe = .error (insuffMsg name needed avail) ∧
      avail < needed := by
  intro recipe
  induction recipe with
  | nil =>
      intro prods hex hfail
      obtain ⟨l, hl, _⟩ := hfail
      cases hl
  | cons l rest ih =>
      intro prods hex hfail
      by_cases hins : lineInsufficient prods S l = true
      · obtain ⟨i, q, p, hI, hQ, hq, hP, hs⟩ := lineInsufficient_elim prods S l hins
        refine ⟨p.name, q * S, p.stock, ?_, hs⟩
        rw [deductLoop_cons, deductLine_fail S prods l i q p hI hQ hq hP hs]
      · have hrest : ∃ l2 ∈ rest, lineInsufficient prods S l2 = true := by
          obtain ⟨l2, hl2, hv⟩ := hfail
          rcases List.mem_cons.mp hl2 with he | hm
          · rw [he] at hv; exact absurd hv hins
          · exact ⟨l2, hm, hv⟩
        have hexR0 : ∀ l2 ∈ rest, ∀ j, l2.ingredient = some j →
            (findProduct prods j).isSome = true :=
          fun l2 hl2 => hex l2 (List.mem_cons_of_mem _ hl2)
        cases hI : l.ingredient with
        | none =>
            rw [deductLoop_cons, deductLine_skip S prods l (Or.inl hI)]
            exact ih prods hexR0 hrest
        | some i0 =>
            cases hQ : l.quantity with
            | none =>
                rw [deductLoop_cons,
                  deductLine_skip S prods l (Or.inr (Or.inl hQ))]
                exact ih prods hexR0 hrest
            | some q =>
                by_cases hq : q ≤ 0
                · rw [deductLoop_cons,
                    deductLine_skip S prods l (Or.inr (Or.inr ⟨q, hQ, hq⟩))]
                  exact ih prods hexR0 hrest
                · push_neg at hq
                  obtain ⟨p0, hp0⟩ := Option.isSome_iff_exists.mp
                    (hex l (List.mem_cons_self l rest) i0 hI)
                  by_cases hs : p0.stock < q * S
                  · exact absurd
                      (lineInsufficient_intro prods S l i0 q p0 hI hQ hq hp0 hs)
                      hins
                  · rw [deductLoop_cons,
                      deductLine_run S prods l i0 q p0 hI hQ hq hp0 hs]
                    have hqS : 0 ≤ q * S := le_of_lt (mul_pos hq hS)
                    refine ih (saveStock prods i0 (p0.stock - q * S)) ?_ ?_
                    · intro l2 hl2 j hj
                      by_cases hji : j = i0
                      · subst hji
                        rw [findProduct_saveStock_eq j _ prods p0 hp0]
                        rfl
                      · rw [findProduct_saveStock_ne i0 j _ hji]
                        exact hexR0 l2 hl2 j hj
                    · obtain ⟨l2, hl2, hv⟩ := hrest
                      obtain ⟨i2, q2, p2, hI2, hQ2, hq2, hP2, hs2⟩ :=
                        lineInsufficient_elim prods S l2 hv
                      refine ⟨l2, hl2, ?_⟩
                      by_cases hji : i2 = i0
                      · subst hji
                        have hpp : p2 = p0 := by
                          rw [hp0] at hP2
                          injection hP2 with he
                          exact he.symm
                        refine lineInsufficient_intro _ S l2 i2 q2 _ hI2 hQ2 hq2
                          (findProduct_saveStock_eq i2 _ prods p0 hp0) ?_
                        show p0.stock - q * S < q2 * S
                        rw [← hpp]
                        linarith
                      · exact lineInsufficient_intro _ S l2 i2 q2 p2 hI2 hQ2 hq2
                          (by rw [findProduct_saveStock_ne i0 i2 _ hji]; exact hP2)
                          hs2

/-! ## Stock non-negativity lemmas -/

theorem deductLine_nonneg (S : ℚ) (prods : List Product) (l : RecipeLine)
    (prodsM : List Product) (h : ∀ p ∈ prods, 0 ≤ p.stock)
    (hok : deductLine S prods l = .ok prodsM) : ∀ p ∈ prodsM, 0 ≤ p.stock := by
  cases hI : l.ingredient with
  | none =>
      rw [deductLine_skip S prods l (Or.inl hI)] at hok
      injection hok with he
      rw [← he]; exact h
  | some i =>
      cases hQ : l.quantity with
      | none =>
          rw [deductLine_skip S prods l (Or.inr (Or.inl hQ))] at hok
          injection hok with he
          rw [← he]; exact h
      | some q =>
          by_cases hq : q ≤ 0
          · rw [deductLine_skip S prods l (Or.inr (Or.inr ⟨q, hQ, hq⟩))] at hok
            injection hok with he
            rw [← he]; exact h
          · push_neg at hq
            cases hP : findProduct prods i with
            | none =>
                simp only [deductLine, hI, hQ, if_neg (not_le.mpr hq), hP]
                  at hok
                exact Except.noConfusion hok
            | some p =>
                by_cases hs : p.stock < q * S
                · rw [deductLine_fail S prods l i q p hI hQ hq hP hs] at hok
                  exact Except.noConfusion hok
                · rw [deductLine_run S prods l i q p hI hQ hq hP hs] at hok
                  injection hok with he
                  rw [← he]
                  exact saveStock_nonneg prods i _
                    (sub_nonneg.mpr (not_lt.mp hs)) h

theorem deductLoop_nonneg (S : ℚ) :
    ∀ (recipe : List RecipeLine) (prods prods2 : List Product),
    (∀ p ∈ prods, 0 ≤ p.stock) → deductLoop S prods recipe = .ok prods2 →
    ∀ p ∈ prods2, 0 ≤ p.stock := by
  intro recipe
  induction recipe with
  | nil =>
      intro prods prods2 h hok
      have hok2 : Except.ok (ε := String) prods = .ok prods2 := hok
      injection hok2 with he
      rw [← he]; exact h
  | cons l rest ih =>
      intro prods prods2 h hok
      rw [deductLoop_cons] at hok
      cases hd : deductLine S prods l with
      | error e =>
          rw [hd] at hok
          exact Except.noConfusion hok
      | ok prodsM =>
          rw [hd] at hok
          exact ih prodsM prods2 (deductLine_nonneg S prods l prodsM h hd) hok

theorem productCreate_nonneg (db : DB) (pd : ProductData)
    (recipe : List RecipeLine) (db2 : DB) (h : ∀ p ∈ db.products, 0 ≤ p.stock)
    (hpd : 0 ≤ pd.stock) (hok : productCreate db pd recipe = .ok db2) :
    ∀ p ∈ db2.products, 0 ≤ p.stock := by
  have hA : ∀ p ∈ db.products ++ [newProduct (nextId db) pd], 0 ≤ p.stock := by
    intro p hp
    rcases List.mem_append.mp hp with h2 | h2
    · exact h p h2
    · rw [List.mem_singleton] at h2
      rw [h2]
      exact hpd
  rw [productCreate_eq] at hok
  by_cases h0 : 0 < pd.stock
  · rw [if_pos h0] at hok
    simp only [deductIngredients] at hok
    cases hL : deductLoop pd.stock
        (db.products ++ [newProduct (nextId db) pd]) recipe with
    | error e =>
        rw [hL] at hok
        exact Except.noConfusion hok
    | ok prods2 =>
        rw [hL] at hok
        injection hok with he
        rw [← he]
        exact deductLoop_nonneg pd.stock recipe _ prods2 hA hL
  · rw [if_neg h0] at hok
    injection hok with he
    rw [← he]
    exact hA

theorem processSaleItems_cons (sid : Nat) (db : DB) (it : SaleItemInput)
    (rest : List SaleItemInput) :
    processSaleItems sid db (it :: rest) =
      match lookupProduct db.products it.product_id with
      | none => (db, some (notFoundMsg it.product_id))
      | some p =>
          if p.stock < it.quantity then
            (db, some (insuffSaleMsg p.name p.stock it.quantity))
          else processSaleItems sid (saleApply sid db p it) rest := rfl

theorem processSaleItems_notfound (sid : Nat) (db : DB) (it : SaleItemInput)
    (rest : List SaleItemInput)
    (hP : lookupProduct db.products it.product_id = none) :
    processSaleItems sid db (it :: rest) =
      (db, some (notFoundMsg it.product_id)) := by
  rw [processSaleItems_cons, hP]

theorem processSaleItems_found (sid : Nat) (db : DB) (it : SaleItemInput)
    (rest : List SaleItemInput) (p : Product)
    (hP : lookupProduct db.products it.product_id = some p) :
    processSaleItems sid db (it :: rest) =
      if p.stock < it.quantity then
        (db, some (insuffSaleMsg p.name p.stock it.quantity))
      else processSaleItems sid (saleApply sid db p it) rest := by
  rw [processSaleItems_cons, hP]

theorem processSaleItems_nonneg (sid : Nat) :
    ∀ (items : List SaleItemInput) (db : DB),
    (∀ p ∈ db.products, 0 ≤ p.stock) →
    ∀ p ∈ (processSaleItems sid db items).1.products, 0 ≤ p.stock := by
  intro items
  induction items with
  | nil => intro db h; exact h
  | cons it rest ih =>
      intro db h
      cases hP : lookupProduct db.products it.product_id with
      | none =>
          rw [processSaleItems_notfound sid db it rest hP]
          exact h
      | some p =>
          by_cases hs : p.stock < it.quantity
          · rw [processSaleItems_found sid db it rest p hP, if_pos hs]
            exact h
          · rw [processSaleItems_found sid db it rest p hP, if_neg hs]
            refine ih (saleApply sid db p it) ?_
            intro p2 hp2
            exact saveStock_nonneg db.products p.id _
              (sub_nonneg.mpr (not_lt.mp hs)) h p2 hp2

theorem saleCreate_nonneg (db : DB) (sd : SaleData) (items : List SaleItemInput)
    (h : ∀ p ∈ db.products, 0 ≤ p.stock) :
    ∀ p ∈ (saleCreate db sd items).1.products, 0 ≤ p.stock :=
  processSaleItems_nonneg (nextSaleId db) items (withSaleHeader db sd) h

theorem runOp_nonneg (db : DB) (op : Op) (h : ∀ p ∈ db.products, 0 ≤ p.stock)
    (hv : opValid op = true) : ∀ p ∈ (runOp db op).products, 0 ≤ p.stock := by
  cases op with
  | pcreate pd recipe =>
      have hpd : 0 ≤ pd.stock := of_decide_eq_true hv
      show ∀ p ∈ (match productCreate db pd recipe with
        | .ok db2 => db2
        | .error _ => db).products, (0 : ℚ) ≤ p.stock
      cases hok : productCreate db pd recipe with
      | ok db2 => exact productCreate_nonneg db pd recipe db2 h hpd hok
      | error e => exact h
  | screate sd items => exact saleCreate_nonneg db sd items h

/-! ## ProductSerializer theorems -/

/-- The derived display state is `Activo` exactly when stock is positive. -/
theorem get_estado_pos (q : Product) : get_estado q = "Activo" ↔ 0 < q.stock := by
  unfold get_estado
  split
  · next h => exact iff_of_true rfl h
  · next h => exact iff_of_false (by decide) h

/-- Creating a product with no recipe lines always succeeds and only appends
the new product row. -/
theorem productCreate_nil (db : DB) (pd : ProductData) :
    productCreate db pd [] =
      .ok { db with products := db.products ++ [newProduct (nextId db) pd] } := by
  simp only [productCreate, List.map_nil, List.append_nil]
  split <;> rfl

/-- C9: every payload with a non-blank name, positive price, and non-negative
stock and threshold passes all field validators (with the name stripped), its
creation succeeds, and the created and every other product shows `estado`
`Activo` exactly when its stock is positive. -/
theorem valid_product_creation_estado (db : DB) (pd : ProductData)
    (h1 : pyStrip pd.name ≠ "") (h2 : 0 < pd.price) (h3 : 0 ≤ pd.stock)
    (h4 : 0 ≤ pd.low_stock_threshold) :
    validateProduct pd = .ok { pd with name := pyStrip pd.name } ∧
    (∃ db2, productCreate db { pd with name := pyStrip pd.name } [] = .ok db2 ∧
      findProduct db2.products (nextId db) =
        some (newProduct (nextId db) { pd with name := pyStrip pd.name }) ∧
      (newProduct (nextId db) { pd with name := pyStrip pd.name }).stock =
        pd.stock) ∧
    (∀ q : Product, get_estado q = "Activo" ↔ 0 < q.stock) := by
  refine ⟨?_, ?_, get_estado_pos⟩
  · unfold validateProduct validate_name validate_price validate_stock
      validate_low_stock_threshold
    rw [if_neg h1, if_neg (not_le.mpr h2), if_neg (not_lt.mpr h3),
      if_neg (not_lt.mpr h4)]
    rfl
  · refine ⟨_, productCreate_nil db _, ?_, rfl⟩
    rw [findProduct_append_none _ _ _ (findProduct_nextId db), findProduct,
      List.find?_cons_of_pos _ (by simp [newProduct])]

/-- A witness for C9: a concrete valid payload against the empty store. -/
theorem valid_product_creation_estado_witness :
    validateProduct
        { name := " Cafe ", description := "", price := 10, stock := 4,
          low_stock_threshold := 1, category := "", is_ingredient := false,
          unit := "u" } =
      .ok { name := "Cafe", description := "", price := 10, stock := 4,
            low_stock_threshold := 1, category := "", is_ingredient := false,
            unit := "u" } := by
  have h := valid_product_creation_estado ⟨[], [], [], []⟩
    { name := " Cafe ", description := "", price := 10, stock := 4,
      low_stock_threshold := 1, category := "", is_ingredient := false,
      unit := "u" }
    (by decide) (by decide) (by decide) (by decide)
  exact h.1

/-- C1: from any store whose product stocks are all non-negative, any
sequence of product-creation (with its validated non-negative initial stock)
and sale-creation operations leaves every product stock non-negative: both
deduction sites check the available stock against the amount to deduct before
decrementing. -/
theorem stock_nonneg_preserved (db : DB) (ops : List Op)
    (h0 : ∀ p ∈ db.products, 0 ≤ p.stock)
    (hops : ∀ op ∈ ops, opValid op = true) :
    ∀ p ∈ (runOps db ops).products, 0 ≤ p.stock := by
  have main : ∀ (ops2 : List Op) (db2 : DB),
      (∀ p ∈ db2.products, 0 ≤ p.stock) →
      (∀ op ∈ ops2, opValid op = true) →
      ∀ p ∈ (runOps db2 ops2).products, 0 ≤ p.stock := by
    intro ops2
    induction ops2 with
    | nil => intro db2 h2 _; exact h2
    | cons op rest ih =>
        intro db2 h2 hops2
        exact ih (runOp db2 op)
          (runOp_nonneg db2 op h2 (hops2 op (List.mem_cons_self _ _)))
          (fun o ho => hops2 o (List.mem_cons_of_mem _ ho))
  exact main ops db h0 hops

/-- A witness for C1: running a concrete sale against a concrete store keeps
all stocks non-negative. -/
theorem stock_nonneg_preserved_witness :
    (∀ p ∈ w1Db.products, 0 ≤ p.stock) ∧
    (∀ op ∈ w1Ops, opValid op = true) ∧
    ∀ p ∈ (runOps w1Db w1Ops).products, 0 ≤ p.stock :=
  ⟨by decide, by decide,
    stock_nonneg_preserved w1Db w1Ops (by decide) (by decide)⟩

/-- C2: creating a recipe product with positive initial stock, when some
recipe line's ingredient has less stock than `quantity_per_unit * S` (and all
referenced ingredients exist), fails with the insufficient-stock error
carrying the ingredient name and the needed and available quantities (with
available < needed), and the whole operation rolls back: the store is left
exactly as it was — no product row, no recipe rows, no partial deductions. -/
theorem recipe_insufficient_aborts (db : DB) (pd : ProductData)
    (recipe : List RecipeLine) (hS : 0 < pd.stock)
    (hex : ∀ l ∈ recipe, lineRefOk db.products l = true)
    (hfail : ∃ l ∈ recipe, lineInsufficient db.products pd.stock l = true) :
    (∃ name needed avail,
      productCreate db pd recipe = .error (insuffMsg name needed avail) ∧
      avail < needed) ∧
    runOp db (Op.pcreate pd recipe) = db := by
  have hex2 : ∀ l ∈ recipe, ∀ j, l.ingredient = some j →
      (findProduct (db.products ++ [newProduct (nextId db) pd]) j).isSome
        = true := by
    intro l hl j hj
    have := hex l hl
    unfold lineRefOk at this
    rw [hj] at this
    obtain ⟨p, hp⟩ := Option.isSome_iff_exists.mp this
    rw [findProduct_append_some _ _ _ _ hp]
    rfl
  have hfailA : ∃ l ∈ recipe,
      lineInsufficient (db.products ++ [newProduct (nextId db) pd]) pd.stock l
        = true := by
    obtain ⟨l, hl, hv⟩ := hfail
    obtain ⟨i, q, p, hI, hQ, hq, hP, hs⟩ := lineInsufficient_elim _ _ _ hv
    exact ⟨l, hl, lineInsufficient_intro _ _ _ i q p hI hQ hq
      (findProduct_append_some _ _ _ _ hP) hs⟩
  obtain ⟨name, needed, avail, herr, hlt⟩ :=
    deductLoop_insufficient pd.stock hS recipe _ hex2 hfailA
  have hperr : productCreate db pd recipe =
      .error (insuffMsg name needed avail) := by
    rw [productCreate_eq, if_pos hS]
    exact deductIngredients_error pd.stock _ recipe _ herr
  refine ⟨⟨name, needed, avail, hperr, hlt⟩, ?_⟩
  show (match productCreate db pd recipe with
    | .ok db2 => db2
    | .error _ => db) = db
  rw [hperr]

/-- A witness for C2 at a concrete input: one ingredient with stock 3, a
recipe needing 2 per unit and initial stock 2 (4 needed). -/
theorem recipe_insufficient_aborts_witness :
    (0 : ℚ) < w2Pd.stock ∧
    ((∃ name needed avail,
      productCreate w2Db w2Pd w2Recipe = .error (insuffMsg name needed avail) ∧
      avail < needed) ∧
    runOp w2Db (Op.pcreate w2Pd w2Recipe) = w2Db) :=
  ⟨by decide, recipe_insufficient_aborts w2Db w2Pd w2Recipe (by decide)
    (by decide)
    ⟨{ ingredient := some 1, quantity := some 2, unit := "kg" }, by decide,
      by simp only [lineInsufficient, findProduct, w2Db, w2Pd, List.find?,
            Bool.and_eq_true, decide_eq_true_eq]
         norm_num⟩⟩

/-- A witness for C4 at a concrete input: ingredient 1 loses 3 × 2 = 6 of its
10, the zero-quantity line and the ingredient-less line deduct nothing. -/
theorem recipe_deduction_exact_witness :
    (0 : ℚ) ≤ w4Pd.stock ∧
    ∃ db2, productCreate w4Db w4Pd w4Recipe = .ok db2 ∧
      (∀ i p, findProduct w4Db.products i = some p →
        findProduct db2.products i =
          some { p with stock := p.stock - totalNeeded w4Recipe w4Pd.stock i }) ∧
      db2.recipeRows = w4Db.recipeRows ++ w4Recipe.map (lineToRow (nextId w4Db)) ∧
      db2.sales = w4Db.sales ∧ db2.saleItems = w4Db.saleItems :=
  ⟨by decide, recipe_deduction_exact w4Db w4Pd w4Recipe (by decide) (by decide)
    (by intro p hp
        fin_cases hp <;>
          norm_num [totalNeeded, lineDeduction, w4Recipe, w4Pd, List.sum_cons])⟩

/-- `saleCreate` unfolded: the header is persisted first, then the items are
processed. -/
theorem saleCreate_def (db : DB) (sd : SaleData) (items : List SaleItemInput) :
    saleCreate db sd items =
      processSaleItems (nextSaleId db) (withSaleHeader db sd) items := rfl

/-- C5: a one-line sale whose product exists with stock ≥ Q succeeds,
appends exactly one SaleItem carrying the submitted price (not the product
price), and decrements that product stock by exactly Q. -/
theorem sale_deducts_and_records_submitted_price (db : DB) (sd : SaleData)
    (pid : Nat) (q pr : ℚ) (p : Product)
    (hfind : findProduct db.products pid = some p) (hstock : q ≤ p.stock) :
    (saleCreate db sd [oneItem pid q pr]).2 = none ∧
    (saleCreate db sd [oneItem pid q pr]).1.saleItems = db.saleItems ++
      [{ sale := nextSaleId db, product := p.id, quantity := q,
         price := pr }] ∧
    findProduct (saleCreate db sd [oneItem pid q pr]).1.products pid =
      some { p with stock := p.stock - q } := by
  have hP : lookupProduct (withSaleHeader db sd).products
      ((oneItem pid q pr).product_id) = some p := hfind
  have hs : ¬ p.stock < (oneItem pid q pr).quantity := not_lt.mpr hstock
  have heq : saleCreate db sd [oneItem pid q pr] =
      (saleApply (nextSaleId db) (withSaleHeader db sd) p (oneItem pid q pr),
        none) := by
    rw [saleCreate_def,
      processSaleItems_found (nextSaleId db) (withSaleHeader db sd) _ [] p hP,
      if_neg hs]
    rfl
  have hid : p.id = pid := by
    simpa [beq_iff_eq] using List.find?_some hfind
  refine ⟨by rw [heq], by rw [heq]; rfl, ?_⟩
  rw [heq]
  show findProduct (saveStock db.products p.id (p.stock - q)) pid = _
  rw [← hid] at hfind ⊢
  exact findProduct_saveStock_eq p.id _ db.products p hfind

/-- A witness for C5 at a concrete input: selling 3 of a product with stock 5
at the submitted price 99 (different from the product price 2). -/
theorem sale_deducts_and_records_submitted_price_witness :
    (3 : ℚ) ≤ w5P.stock ∧
    ((saleCreate w5Db w5Sd [oneItem 1 3 99]).2 = none ∧
    (saleCreate w5Db w5Sd [oneItem 1 3 99]).1.saleItems = w5Db.saleItems ++
      [{ sale := nextSaleId w5Db, product := w5P.id, quantity := 3,
         price := 99 }] ∧
    findProduct (saleCreate w5Db w5Sd [oneItem 1 3 99]).1.products 1 =
      some { w5P with stock := w5P.stock - 3 }) :=
  ⟨by decide, sale_deducts_and_records_submitted_price w5Db w5Sd 1 3 99 w5P
    (by decide) (by decide)⟩

/-- The item loop never touches the sale headers. -/
theorem processSaleItems_sales (sid : Nat) :
    ∀ (items : List SaleItemInput) (db : DB),
    (processSaleItems sid db items).1.sales = db.sales := by
  intro items
  induction items with
  | nil => intro db; rfl
  | cons it rest ih =>
      intro db
      cases hP : lookupProduct db.products it.product_id with
      | none => rw [processSaleItems_notfound sid db it rest hP]
      | some p =>
          by_cases hs : p.stock < it.quantity
          · rw [processSaleItems_found sid db it rest p hP, if_pos hs]
          · rw [processSaleItems_found sid db it rest p hP, if_neg hs]
            rw [ih (saleApply sid db p it)]
            rfl

/-- A failing item loop splits as: successfully processed prefix, failing
line, untouched suffix; the final store is exactly the store after the
prefix. -/
theorem processSaleItems_error_split (sid : Nat) :
    ∀ (items : List SaleItemInput) (db : DB),
    (processSaleItems sid db items).2.isSome = true →
    ∃ pre bad post, items = pre ++ bad :: post ∧
      processSaleItems sid db pre = ((processSaleItems sid db items).1, none) := by
  intro items
  induction items with
  | nil =>
      intro db h
      exact Bool.noConfusion h
  | cons it rest ih =>
      intro db h
      cases hP : lookupProduct db.products it.product_id with
      | none =>
          refine ⟨[], it, rest, rfl, ?_⟩
          rw [processSaleItems_notfound sid db it rest hP]
          rfl
      | some p =>
          by_cases hs : p.stock < it.quantity
          · refine ⟨[], it, rest, rfl, ?_⟩
            rw [processSaleItems_found sid db it rest p hP, if_pos hs]
            rfl
          · rw [processSaleItems_found sid db it rest p hP, if_neg hs] at h ⊢
            obtain ⟨pre, bad, post, he, hrun⟩ := ih (saleApply sid db p it) h
            refine ⟨it :: pre, bad, post, by rw [he, List.cons_append], ?_⟩
            rw [processSaleItems_found sid db it pre p hP, if_neg hs]
            exact hrun

/-- C3 counterexample: in the concrete failing sale (second line asks for 5
of a product with stock 3), the operation reports a conflict, yet the Sale
header, the first line SaleItem and the first line stock deduction all
persist — the claim's rollback does not happen. -/
theorem sale_conflict_rollback_counterexample :
    (saleCreate cx3Db cx3Sd cx3Items).2.isSome = true ∧
    (saleCreate cx3Db cx3Sd cx3Items).1.sales ≠ cx3Db.sales ∧
    (saleCreate cx3Db cx3Sd cx3Items).1.saleItems ≠ cx3Db.saleItems ∧
    findProduct (saleCreate cx3Db cx3Sd cx3Items).1.products 1 ≠
      findProduct cx3Db.products 1 := by
  refine ⟨by decide, by decide, by decide, ?_⟩
  have h4 : findProduct (saleCreate cx3Db cx3Sd cx3Items).1.products 1 =
      some { id := 1, name := "Pan", description := "", price := 2,
              stock := 5 - 2, low_stock_threshold := 0, category := "",
              is_ingredient := false, unit := "u" } := rfl
  have h5 : findProduct cx3Db.products 1 =
      some { id := 1, name := "Pan", description := "", price := 2,
              stock := 5, low_stock_threshold := 0, category := "",
              is_ingredient := false, unit := "u" } := rfl
  rw [h4, h5]
  simp only [ne_eq, Option.some.injEq, Product.mk.injEq]
  norm_num

/-- C3 (amended): a business-rule conflict while creating a sale (missing
product or insufficient stock) aborts the failing line and everything after
it — no SaleItem and no deduction for those — but does not roll back: the
Sale header persists, and the SaleItems and stock deductions of the lines
processed before the conflict persist (the final store is exactly the store
after the successful prefix). -/
theorem sale_conflict_partial_rollback (db : DB) (sd : SaleData)
    (items : List SaleItemInput)
    (h : (saleCreate db sd items).2.isSome = true) :
    (saleCreate db sd items).1.sales = db.sales ++ [newSaleRow db sd] ∧
    ∃ pre bad post, items = pre ++ bad :: post ∧
      processSaleItems (nextSaleId db) (withSaleHeader db sd) pre =
        ((saleCreate db sd items).1, none) := by
  constructor
  · rw [saleCreate_def, processSaleItems_sales]
    rfl
  · exact processSaleItems_error_split (nextSaleId db) items
      (withSaleHeader db sd) h

/-- A witness for C3 (amended) at the counterexample input. -/
theorem sale_conflict_partial_rollback_witness :
    (saleCreate cx3Db cx3Sd cx3Items).1.sales =
      cx3Db.sales ++ [newSaleRow cx3Db cx3Sd] ∧
    ∃ pre bad post, cx3Items = pre ++ bad :: post ∧
      processSaleItems (nextSaleId cx3Db) (withSaleHeader cx3Db cx3Sd) pre =
        ((saleCreate cx3Db cx3Sd cx3Items).1, none) :=
  sale_conflict_partial_rollback cx3Db cx3Sd cx3Items (by decide)

end Serializers
